import Mathlib

/-!
Verification development for the mirra directory-mirroring daemon.

The Rust sources are shallowly embedded:
* `src/packet.rs`  — wire codec (`PacketKind`, per-type `WriteAny`/`ReadAny`)
* `src/socket.rs`  — `Client::expect_file`
* `src/util.rs`    — `hash_file`
* `src/node.rs`    — `receive_file`, `process_node` arms (Remove/Rename)
* `src/root.rs`    — `sync_file`, `sync_dir`, handshake loop of `process_socket`

Byte streams are modelled as `List Nat` (each element a byte value), machine
integers as `Nat` with explicit `% 2 ^ w` at the places the source casts,
strings as lists of Unicode scalar values encoded/decoded through an explicit
UTF-8 codec (mirroring Rust's `String::from_utf8` validation), and fallible
operations return `Except Err`.
-/

namespace Mirra

/-- Error kinds of `std::io::ErrorKind` that the sources construct. -/
inductive Err where
  | io
  | invalidData
  | invalidInput
  | other
deriving DecidableEq, Repr

instance {ε α : Type} [DecidableEq ε] [DecidableEq α] : DecidableEq (Except ε α) := fun x y =>
  match x, y with
  | .error a, .error b => decidable_of_iff (a = b) (by simp)
  | .error _, .ok _ => .isFalse (by simp)
  | .ok _, .error _ => .isFalse (by simp)
  | .ok a, .ok b => decidable_of_iff (a = b) (by simp)

/-! ## Primitive integer encodings (big-endian, as `tokio` write_u8/u32/u64) -/

/-- One byte, value taken mod 2^8 (a `u8` write). -/
def encU8 (n : Nat) : List Nat := [n % 256]

/-- Big-endian `u32` write; the value is truncated mod 2^32 as a Rust `as u32` cast would. -/
def encU32 (n : Nat) : List Nat :=
  [n % 2 ^ 32 / 2 ^ 24 % 256, n % 2 ^ 32 / 2 ^ 16 % 256, n % 2 ^ 32 / 2 ^ 8 % 256, n % 2 ^ 32 % 256]

/-- Big-endian `u64` write, truncated mod 2^64. -/
def encU64 (n : Nat) : List Nat :=
  [n % 2 ^ 64 / 2 ^ 56 % 256, n % 2 ^ 64 / 2 ^ 48 % 256, n % 2 ^ 64 / 2 ^ 40 % 256,
   n % 2 ^ 64 / 2 ^ 32 % 256, n % 2 ^ 64 / 2 ^ 24 % 256, n % 2 ^ 64 / 2 ^ 16 % 256,
   n % 2 ^ 64 / 2 ^ 8 % 256, n % 2 ^ 64 % 256]

/-- Read one byte from the stream; an exhausted stream is an I/O failure. -/
def decU8 (bs : List Nat) : Except Err (Nat × List Nat) :=
  match bs with
  | [] => .error .io
  | b :: rest => .ok (b, rest)

/-- Read a big-endian `u32`. -/
def decU32 (bs : List Nat) : Except Err (Nat × List Nat) :=
  match bs with
  | b0 :: b1 :: b2 :: b3 :: rest => .ok (b0 * 2 ^ 24 + b1 * 2 ^ 16 + b2 * 2 ^ 8 + b3, rest)
  | _ => .error .io

/-! ## UTF-8 (the validation performed by Rust's `String::from_utf8`)

A decoded string is a list of Unicode scalar values.  `utf8EncodeChar` is the
standard UTF-8 encoding; `utf8DecodeAux` accepts exactly the well-formed
encodings (continuation ranges per leading byte, rejecting overlong forms,
surrogates and values above 0x10FFFF), as Rust's stdlib validator does. -/

/-- A Unicode scalar value: any code point except the surrogate range. -/
def isScalar (c : Nat) : Bool := c < 0xD800 || (0xE000 ≤ c && c < 0x110000)

/-- Standard UTF-8 encoding of one scalar value. -/
def utf8EncodeChar (c : Nat) : List Nat :=
  if c < 0x80 then [c]
  else if c < 0x800 then [0xC0 + c / 0x40, 0x80 + c % 0x40]
  else if c < 0x10000 then
    [0xE0 + c / 0x1000, 0x80 + c / 0x40 % 0x40, 0x80 + c % 0x40]
  else
    [0xF0 + c / 0x40000, 0x80 + c / 0x1000 % 0x40, 0x80 + c / 0x40 % 0x40, 0x80 + c % 0x40]

/-- UTF-8 encoding of a scalar-value list. -/
def utf8Encode : List Nat → List Nat
  | [] => []
  | c :: cs => utf8EncodeChar c ++ utf8Encode cs

/-- Strict UTF-8 decoding; the fuel bounds the number of decoded characters
(one unit per character, so the byte length is always sufficient).  The
continuation-byte ranges per leading byte are those of Rust's validator. -/
def utf8DecodeAux : Nat → List Nat → Option (List Nat)
  | _, [] => some []
  | 0, _ :: _ => none
  | fuel + 1, b :: bs =>
    if b < 0x80 then
      (utf8DecodeAux fuel bs).map (b :: ·)
    else if b < 0xC2 then none
    else if b < 0xE0 then
      match bs with
      | b1 :: bs1 =>
        if 0x80 ≤ b1 ∧ b1 ≤ 0xBF then
          (utf8DecodeAux fuel bs1).map (((b - 0xC0) * 0x40 + (b1 - 0x80)) :: ·)
        else none
      | _ => none
    else if b < 0xF0 then
      match bs with
      | b1 :: b2 :: bs2 =>
        if (if b = 0xE0 then 0xA0 else 0x80) ≤ b1 ∧ b1 ≤ (if b = 0xED then 0x9F else 0xBF) ∧
            0x80 ≤ b2 ∧ b2 ≤ 0xBF then
          (utf8DecodeAux fuel bs2).map
            (((b - 0xE0) * 0x1000 + (b1 - 0x80) * 0x40 + (b2 - 0x80)) :: ·)
        else none
      | _ => none
    else if b < 0xF5 then
      match bs with
      | b1 :: b2 :: b3 :: bs3 =>
        if (if b = 0xF0 then 0x90 else 0x80) ≤ b1 ∧ b1 ≤ (if b = 0xF4 then 0x8F else 0xBF) ∧
            0x80 ≤ b2 ∧ b2 ≤ 0xBF ∧ 0x80 ≤ b3 ∧ b3 ≤ 0xBF then
          (utf8DecodeAux fuel bs3).map
            (((b - 0xF0) * 0x40000 + (b1 - 0x80) * 0x1000 + (b2 - 0x80) * 0x40 + (b3 - 0x80)) :: ·)
        else none
      | _ => none
    else none

/-- Decode a byte list as UTF-8 (`String::from_utf8` success = `some`). -/
def utf8Decode (bs : List Nat) : Option (List Nat) := utf8DecodeAux bs.length bs

/-- A wire string: a list of Unicode scalar values. -/
abbrev Str := List Nat

/-- All code points of the string are Unicode scalar values (Rust `String` invariant). -/
def validStr (s : Str) : Bool := s.all isScalar

/-! ## String codec (`WriteAny<String>` / `ReadAny<String>` in `src/packet.rs`)

`write_any(t: String)` writes `t.len() as u32` (byte length, truncated by the
cast) then the UTF-8 bytes.  `read_any` reads the `u32` length, exactly that
many bytes, and fails with `InvalidData` if they are not valid UTF-8. -/

/-- Encoding of a string field: `u32` byte-length prefix (cast-truncated) + UTF-8 bytes. -/
def encString (s : Str) : List Nat := encU32 (utf8Encode s).length ++ utf8Encode s

/-- Decoding of a string field. -/
def decString (bs : List Nat) : Except Err (Str × List Nat) :=
  match decU32 bs with
  | .error e => .error e
  | .ok (n, rest) =>
    if rest.length < n then .error .io
    else
      match utf8Decode (rest.take n) with
      | some s => .ok (s, rest.drop n)
      | none => .error .invalidData


/-! ## Packet kinds (`PacketKind` in `src/packet.rs`, lines 14–21)

The checked-in `packet.rs` enumerates exactly six kinds with these
discriminants.  (Note that `src/node.rs` and `src/root.rs` import further
kinds — `Close`, `NotFound`, `Heartbeat`, `BeginSync`, `EndSync`, `Remove`,
`Rename`, `Skip` — that this enumeration does not contain.) -/

inductive PacketKind where
  | Ok
  | Handshake
  | Intent
  | Continue
  | FileHeader
  | File
deriving DecidableEq, Repr, Fintype

/-- The `u8` discriminant the codec writes for a kind (`T::KIND as u8`). -/
def PacketKind.tag : PacketKind → Nat
  | .Ok => 0x1
  | .Handshake => 0x2
  | .Intent => 0x3
  | .Continue => 0x4
  | .FileHeader => 0x5
  | .File => 0x6

/-- The source-level name of a code kind, for comparison with the spec table. -/
def PacketKind.name : PacketKind → String
  | .Ok => "Ok"
  | .Handshake => "Handshake"
  | .Intent => "Intent"
  | .Continue => "Continue"
  | .FileHeader => "FileHeader"
  | .File => "File"

/-- `FromPrimitive::from_u8` over the kind discriminants
(`Client::read_packet_kind` in `src/socket.rs`). -/
def packetKindOfByte (b : Nat) : Option PacketKind :=
  if b = 0x1 then some .Ok
  else if b = 0x2 then some .Handshake
  else if b = 0x3 then some .Intent
  else if b = 0x4 then some .Continue
  else if b = 0x5 then some .FileHeader
  else if b = 0x6 then some .File
  else none

/-- The wire-protocol table of the specification (§6.1): kind name ↦ tag value. -/
def specKindTable : List (String × Nat) :=
  [("Ok", 0x1), ("Close", 0x2), ("Handshake", 0x3), ("NotFound", 0x4),
   ("Heartbeat", 0x5), ("BeginSync", 0x6), ("EndSync", 0x7), ("FileHeader", 0x8),
   ("File", 0x9), ("Remove", 0xA), ("Rename", 0xB), ("Skip", 0xC)]

/-! ## Message codec (`WriteAny`/`ReadAny` impls in `src/packet.rs`)

The kinds with both a writer and a reader are `Ok` (empty body),
`Handshake { name, ip }`, `ContinueSync { cont }`, `Intent` and
`FileHeader { path, hash, cert }`.  `File` has a writer only; its reader is
`Client::expect_file`, modelled separately. -/

/-- The `Intent` enum of `src/packet.rs` (discriminants 1, 2, 3). -/
inductive Intent where
  | FullSync
  | PartSync
  | CertSync
deriving DecidableEq, Repr

/-- `Intent as u8`. -/
def Intent.tag : Intent → Nat
  | .FullSync => 1
  | .PartSync => 2
  | .CertSync => 3

/-- The codec's message variants (kind + fields, in declaration order). -/
inductive Msg where
  | ok
  | handshake (name ip : Str)
  | continueSync (cont : Bool)
  | intent (i : Intent)
  | fileHeader (path hash cert : Str)
deriving DecidableEq, Repr

/-- `Client::send`: kind byte, then the body via `write_any`. -/
def encMsg : Msg → List Nat
  | .ok => [PacketKind.Ok.tag]
  | .handshake name ip => PacketKind.Handshake.tag :: (encString name ++ encString ip)
  | .continueSync c => [PacketKind.Continue.tag, if c then 1 else 0]
  | .intent i => [PacketKind.Intent.tag, i.tag]
  | .fileHeader path hash cert =>
    PacketKind.FileHeader.tag :: (encString path ++ encString hash ++ encString cert)

/-- Body reader for `Handshake` (`name`, then `ip`). -/
def decHandshakeBody (bs : List Nat) : Except Err (Msg × List Nat) :=
  match decString bs with
  | .error e => .error e
  | .ok (name, r1) =>
    match decString r1 with
    | .error e => .error e
    | .ok (ip, r2) => .ok (.handshake name ip, r2)

/-- Body reader for `FileHeader` (`path`, `hash`, `cert`). -/
def decFileHeaderBody (bs : List Nat) : Except Err (Msg × List Nat) :=
  match decString bs with
  | .error e => .error e
  | .ok (path, r1) =>
    match decString r1 with
    | .error e => .error e
    | .ok (hash, r2) =>
      match decString r2 with
      | .error e => .error e
      | .ok (cert, r3) => .ok (.fileHeader path hash cert, r3)

/-- Body reader for `Intent`: one byte, valid iff in `1..4`
(`ReadAny<Intent>`, which fails with `ErrorKind::Other`). -/
def decIntentBody (bs : List Nat) : Except Err (Msg × List Nat) :=
  match decU8 bs with
  | .error e => .error e
  | .ok (t, r) =>
    if t = 1 then .ok (.intent .FullSync, r)
    else if t = 2 then .ok (.intent .PartSync, r)
    else if t = 3 then .ok (.intent .CertSync, r)
    else .error .other

/-- Body reader for `ContinueSync`: one byte, `cont := byte ≠ 0`. -/
def decContinueBody (bs : List Nat) : Except Err (Msg × List Nat) :=
  match decU8 bs with
  | .error e => .error e
  | .ok (t, r) => .ok (.continueSync (t ≠ 0), r)

/-- Typed receive: `Client::read_packet_kind` then the body reader of the
decoded kind (as `Client::expect` dispatches on `T::KIND`).  The `File` kind
has no message-body reader, so it is a protocol error here. -/
def decMsg (bs : List Nat) : Except Err (Msg × List Nat) :=
  match decU8 bs with
  | .error e => .error e
  | .ok (b, rest) =>
    match packetKindOfByte b with
    | none => .error .invalidData
    | some .Ok => .ok (.ok, rest)
    | some .Handshake => decHandshakeBody rest
    | some .Intent => decIntentBody rest
    | some .Continue => decContinueBody rest
    | some .FileHeader => decFileHeaderBody rest
    | some .File => .error .invalidData

/-- A string value representable on the wire: a Rust `String` (scalar values
only) whose byte length fits the `u32` length prefix without truncation. -/
def strWf (s : Str) : Bool := validStr s && decide ((utf8Encode s).length < 2 ^ 32)

/-- All string fields of the message are representable on the wire. -/
def msgWf : Msg → Bool
  | .ok => true
  | .handshake name ip => strWf name && strWf ip
  | .continueSync _ => true
  | .intent _ => true
  | .fileHeader path hash cert => strWf path && strWf hash && strWf cert

/-! ## File handles and `hash_file` (`src/util.rs`, lines 50–67) -/

/-- An open file: its byte content and the read cursor. -/
structure FileM where
  content : List Nat
  pos : Nat
deriving DecidableEq, Repr

/-- The read loop of `hash_file`: read into a 4 KiB buffer until a read
returns no bytes, accumulating the bytes fed to the hasher. -/
def hashFileLoop (f : FileM) (acc : List Nat) : List Nat × FileM :=
  if ((f.content.drop f.pos).take 0x1000).length = 0 then (acc, f)
  else hashFileLoop ⟨f.content, f.pos + ((f.content.drop f.pos).take 0x1000).length⟩
    (acc ++ (f.content.drop f.pos).take 0x1000)
termination_by f.content.length - f.pos
decreasing_by
  simp only [List.length_take, List.length_drop] at *
  omega

/-- `hash_file`: hash the bytes from the cursor to EOF in 4 KiB chunks, then
seek the file back to offset 0.  `H` abstracts the 256-bit digest-to-lowercase-
hex function (`blake3::Hasher` + `Hash::to_string`). -/
def hashFile (H : List Nat → String) (f : FileM) : String × FileM :=
  let br := hashFileLoop f []
  (H br.1, ⟨br.2.content, 0⟩)

/-! ## `Client::expect_file` (`src/socket.rs`, lines 83–117)

The stream is a byte queue plus a read schedule: the k-th `read` call returns
`min (requested, schedule[k], queue length)` bytes, and a read that returns
zero bytes ends the loop (an exhausted schedule models a closed peer).  The
loop keeps the source's buffer handling: `buf.truncate(to_read)`, read into
the buffer, then `write_all(&buf[0..to_read])` — writing `to_read` bytes even
when the read returned fewer. -/

/-- Loop state: remaining declared `size`, stream queue, the reused buffer,
bytes written to the file so far, bytes received so far.  Returns
(file bytes, received bytes, remaining size counter). -/
def expectFileLoop (size : Nat) (queue buf fileAcc recvAcc : List Nat) :
    List Nat → List Nat × List Nat × Nat
  | [] => (fileAcc, recvAcc, size)
  | avail :: sched =>
    let toRead := min size 0x1000
    let buf1 := buf.take toRead
    let r := queue.take (min toRead avail)
    if r.length = 0 then (fileAcc, recvAcc, size)
    else
      expectFileLoop (size - r.length) (queue.drop r.length) (r ++ buf1.drop r.length)
        (fileAcc ++ (r ++ buf1.drop r.length)) (recvAcc ++ r) sched

/-- `expect_file`: require the leading kind byte to be `File`, then read the
declared `u64` size and run the receive loop with a fresh 4 KiB zero buffer. -/
def expectFile (kindByte size : Nat) (queue sched : List Nat) :
    Except Err (List Nat × List Nat × Nat) :=
  if kindByte = PacketKind.File.tag then
    .ok (expectFileLoop size queue (List.replicate 0x1000 0) [] [] sched)
  else .error .invalidData

/-! ## Paths

`relative_path` values are forward-slash strings.  `PathBuf::join` appends,
except that joining an absolute path replaces the base; the operating system
resolves `.` and `..` components when the path is opened, which `normComps`
models.  Absolute paths are component lists from the filesystem root. -/

/-- Split a character list at `/`, accumulating the current component. -/
def splitSlashAux (cs : List Char) (cur : List Char) : List String :=
  match cs with
  | [] => [String.mk cur.reverse]
  | c :: rest =>
    if c = '/' then String.mk cur.reverse :: splitSlashAux rest []
    else splitSlashAux rest (c :: cur)

/-- A parsed path: absolute flag plus components (empty segments dropped). -/
structure RPath where
  abs : Bool
  comps : List String
deriving DecidableEq, Repr

/-- Parse a forward-slash path string. -/
def parsePath (s : String) : RPath :=
  ⟨s.data.head? = some '/', (splitSlashAux s.data []).filter (fun c => c ≠ "")⟩

/-- `PathBuf::join`: an absolute right operand replaces the base. -/
def joinP (base : List String) (p : RPath) : List String :=
  if p.abs then p.comps else base ++ p.comps

/-- Resolution of `.` and `..` components (at the filesystem root, `..` stays
at the root, as on Linux). -/
def normComps (cs : List String) : List String :=
  cs.foldl (fun acc c => if c = "." then acc else if c = ".." then acc.dropLast else acc ++ [c]) []

/-! ## The node's filesystem and `receive_file` (`src/node.rs`) -/

/-- A filesystem entry at the node: a regular file with content, or a directory. -/
inductive Entry where
  | file (content : List Nat)
  | dir
deriving DecidableEq, Repr

/-- The node's filesystem: entries keyed by normalized absolute path components. -/
abbrev NodeFs := List (List String × Entry)

def lookupFs (fs : NodeFs) (p : List String) : Option Entry :=
  match fs with
  | [] => none
  | (q, e) :: rest => if q = p then some e else lookupFs rest p

def insertFs (fs : NodeFs) (p : List String) (e : Entry) : NodeFs :=
  match fs with
  | [] => [(p, e)]
  | (q, e0) :: rest => if q = p then (p, e) :: rest else (q, e0) :: insertFs rest p e

def removeFs (fs : NodeFs) (p : List String) : NodeFs :=
  fs.filter (fun qe => qe.1 ≠ p)

/-- `fs::rename` at the model level: move the entry when the source exists,
otherwise leave the filesystem unchanged (the node only logs the failure). -/
def renameFs (fs : NodeFs) (src dst : List String) : NodeFs :=
  match lookupFs fs src with
  | none => fs
  | some e => insertFs (removeFs fs src) dst e

/-- Modelled from the spec: the full packet-kind set of the wire-protocol
table (§6.1).  `src/node.rs` and `src/root.rs` import these kinds from
`packet.rs`, but the checked-in `packet.rs` (an older revision) does not
define them, so the enumeration used by the session logic is taken from the
specification's table. -/
inductive ProtoKind where
  | Ok
  | Close
  | Handshake
  | NotFound
  | Heartbeat
  | BeginSync
  | EndSync
  | FileHeader
  | File
  | Remove
  | Rename
  | Skip
deriving DecidableEq, Repr

/-- Protocol-level messages sent by the node and root session logic. -/
inductive PMsg where
  | ok
  | close
  | notFound
  | heartbeat
  | beginSync
  | endSync
  | skip
  | handshake (module : String)
  | fileHeader (path hash cert : String)
  | fileData (content : List Nat)
  | remove (path : String)
  | rename (old next : String)
deriving DecidableEq, Repr

/-- The kind tag of a protocol-level message. -/
def kindOfPMsg : PMsg → ProtoKind
  | .ok => .Ok
  | .close => .Close
  | .notFound => .NotFound
  | .heartbeat => .Heartbeat
  | .beginSync => .BeginSync
  | .endSync => .EndSync
  | .skip => .Skip
  | .handshake _ => .Handshake
  | .fileHeader _ _ _ => .FileHeader
  | .fileData _ => .File
  | .remove _ => .Remove
  | .rename _ _ => .Rename

/-- A received `FileHeader` body. -/
structure FileHeaderP where
  path : String
  hash : String
  cert : String
deriving DecidableEq, Repr

/-- `receive_file` of `src/node.rs` (lines 22–62).  `base` is the module's
local directory (absolute components), `incoming` the content the root
streams when the node answers `Ok`.  If the target path exists: open, lock,
hash, unlock, and reply `Skip` when the hash matches the header's — hashing a
directory entry fails with an I/O error (the read syscall fails on a
directory handle).  Otherwise reply `Ok`, create parent directories, open the
target with truncate+create+write, receive the file, reply `Ok`.  The target
key is the normalized joined path, as the operating system resolves it at
open time; no rejection of escaping paths is performed. -/
def receiveFile (H : List Nat → String) (base : List String) (fs : NodeFs)
    (hdr : FileHeaderP) (incoming : List Nat) : Except Err (List PMsg × NodeFs) :=
  let target := normComps (joinP base (parsePath hdr.path))
  match lookupFs fs target with
  | some (.file c) =>
    if H c = hdr.hash then .ok ([.skip], fs)
    else .ok ([.ok, .ok], insertFs fs target (.file incoming))
  | some .dir => .error .io
  | none => .ok ([.ok, .ok], insertFs fs target (.file incoming))

/-- The `Remove` arm of `process_node` (`src/node.rs`, lines 135–146): reply
`Ok`, then delete the target if it exists and is a regular file. -/
def nodeRemove (base : List String) (fs : NodeFs) (path : String) : List PMsg × NodeFs :=
  let target := normComps (joinP base (parsePath path))
  match lookupFs fs target with
  | some (.file _) => ([.ok], removeFs fs target)
  | _ => ([.ok], fs)

/-- The `Rename` arm of `process_node` (`src/node.rs`, lines 148–158): reply
`Ok`, then attempt the rename (a failure is only logged). -/
def nodeRename (base : List String) (fs : NodeFs) (old next : String) : List PMsg × NodeFs :=
  ([.ok], renameFs fs (normComps (joinP base (parsePath old)))
    (normComps (joinP base (parsePath next))))

/-! ## The root's per-file transfer and tree walk (`src/root.rs`) -/

/-- Explicit file-lock operations performed by `sync_file`. -/
inductive LockEv where
  | lock
  | unlock
deriving DecidableEq, Repr

/-- `sync_file` of `src/root.rs` (lines 22–56): open and lock the file, hash
it, send `FileHeader{relative_path, hash, sign(hash)}`, then read the node's
reply: `Ok` → send the file, unlock, expect a final `Ok`; `Skip` or `Close` →
return at once (no unlock call; the handle is dropped); anything else →
`InvalidData`.  Returns (messages sent, lock operations, unconsumed replies). -/
def syncFile (H : List Nat → String) (sign : String → String) (relPath : String)
    (content : List Nat) (replies : List ProtoKind) :
    Except Err (List PMsg × List LockEv × List ProtoKind) :=
  match replies with
  | [] => .error .io
  | .Ok :: rs =>
    match rs with
    | [] => .error .io
    | r2 :: rs2 =>
      if r2 = .Ok then
        .ok ([.fileHeader relPath (H content) (sign (H content)), .fileData content],
          [.lock, .unlock], rs2)
      else .error .invalidData
  | .Skip :: rs => .ok ([.fileHeader relPath (H content) (sign (H content))], [.lock], rs)
  | .Close :: rs => .ok ([.fileHeader relPath (H content) (sign (H content))], [.lock], rs)
  | _ :: _ => .error .invalidData

mutual
/-- A directory tree at the root: regular files with content, subdirectories
with entries in `read_dir` order. -/
inductive FsTree where
  | file (name : String) (content : List Nat)
  | dir (name : String) (entries : FsChildren)
/-- The ordered entries of a directory. -/
inductive FsChildren where
  | nil
  | cons (hd : FsTree) (tl : FsChildren)
end

mutual
/-- `sync_dir` of `src/root.rs` (lines 59–80) applied to one entry: a regular
file runs `sync_file` with the relative path (prefix stripped, `/`-joined);
a directory recurses over its entries.  No entry is filtered: there is no
check for `.mirra` anywhere in the walk. -/
def syncTree (H : List Nat → String) (sign : String → String) (rel : List String) :
    FsTree → List ProtoKind → Except Err (List PMsg × List ProtoKind)
  | .file name content, replies =>
    match syncFile H sign (String.intercalate "/" (rel ++ [name])) content replies with
    | .error e => .error e
    | .ok (msgs, _, rs) => .ok (msgs, rs)
  | .dir name entries, replies => syncChildren H sign (rel ++ [name]) entries replies

/-- The `read_dir` iteration of `sync_dir`, in order. -/
def syncChildren (H : List Nat → String) (sign : String → String) (rel : List String) :
    FsChildren → List ProtoKind → Except Err (List PMsg × List ProtoKind)
  | .nil, replies => .ok ([], replies)
  | .cons t ts, replies =>
    match syncTree H sign rel t replies with
    | .error e => .error e
    | .ok (msgs, rs) =>
      match syncChildren H sign rel ts rs with
      | .error e => .error e
      | .ok (msgs2, rs2) => .ok (msgs ++ msgs2, rs2)
end

/-- The relative paths of the `FileHeader` messages in a transcript. -/
def headerPaths (msgs : List PMsg) : List String :=
  msgs.filterMap fun m =>
    match m with
    | .fileHeader p _ _ => some p
    | _ => none

/-- The number of `File` messages in a transcript. -/
def fileDataCount (msgs : List PMsg) : Nat :=
  (msgs.filter fun m =>
    match m with
    | .fileData _ => true
    | _ => false).length

/-- One complete per-file exchange: the root (`sync_file`) sends the header,
the node (`receive_file`) answers and receives when it answered `Ok`, and the
root consumes the node's messages as its replies.  Returns
(root messages, node messages, final node filesystem). -/
def fileExchange (H : List Nat → String) (sign : String → String) (base : List String)
    (fs : NodeFs) (relPath : String) (content : List Nat) :
    Except Err (List PMsg × List PMsg × NodeFs) :=
  match receiveFile H base fs ⟨relPath, H content, sign (H content)⟩ content with
  | .error e => .error e
  | .ok (nodeMsgs, fs1) =>
    match syncFile H sign relPath content (nodeMsgs.map kindOfPMsg) with
    | .error e => .error e
    | .ok (rootMsgs, _, _) => .ok (rootMsgs, nodeMsgs, fs1)

/-! ## The root handshake loop (`src/root.rs`, lines 104–142) -/

/-- Incoming packets during the handshake phase. -/
inductive HsIn where
  | handshake (module : String)
  | close
  | other
deriving DecidableEq, Repr

/-- `HashMap::get` over an association list (insertion order). -/
def lookupAssoc (m : List (String × String)) (k : String) : Option String :=
  match m with
  | [] => none
  | (k0, v) :: rest => if k0 = k then some v else lookupAssoc rest k

/-- The handshake loop of `process_socket`: on `Handshake`, the body is read
and `Ok` is sent unconditionally; then the module is looked up first in
shares, then in syncs — on a hit the canonicalized path is bound and the loop
ends, on a miss `NotFound` is sent and the loop continues.  On `Close` the
root replies `Close` and ends the session with no bound directory.  Any other
kind is `InvalidData`.  `canon` abstracts `fs::canonicalize`. -/
def processHandshake (canon : String → String) (shares syncs : List (String × String)) :
    List HsIn → Except Err (List PMsg × Option String)
  | [] => .error .io
  | .handshake m :: rest =>
    match lookupAssoc shares m with
    | some p => .ok ([.ok], some (canon p))
    | none =>
      match lookupAssoc syncs m with
      | some p => .ok ([.ok], some (canon p))
      | none =>
        match processHandshake canon shares syncs rest with
        | .error e => .error e
        | .ok (msgs, d) => .ok (.ok :: .notFound :: msgs, d)
  | .close :: _ => .ok ([.close], none)
  | .other :: _ => .error .invalidData

/-! # Lemmas and theorems -/

/-! ### UTF-8 round-trip -/

lemma utf8EncodeChar_length_pos (c : Nat) : 1 ≤ (utf8EncodeChar c).length := by
  unfold utf8EncodeChar
  split_ifs <;> simp

lemma utf8DecodeAux_enc1 (fuel c : Nat) (rest : List Nat) (h : c < 0x80) :
    utf8DecodeAux (fuel + 1) (utf8EncodeChar c ++ rest) =
      (utf8DecodeAux fuel rest).map (c :: ·) := by
  have he : utf8EncodeChar c = [c] := by
    rw [utf8EncodeChar, if_pos h]
  rw [he]
  simp only [List.cons_append, List.nil_append, List.append_eq, utf8DecodeAux]
  rw [if_pos h]

lemma utf8DecodeAux_enc2 (fuel c : Nat) (rest : List Nat) (h1 : 0x80 ≤ c) (h2 : c < 0x800) :
    utf8DecodeAux (fuel + 1) (utf8EncodeChar c ++ rest) =
      (utf8DecodeAux fuel rest).map (c :: ·) := by
  have he : utf8EncodeChar c = [0xC0 + c / 0x40, 0x80 + c % 0x40] := by
    rw [utf8EncodeChar, if_neg (by omega), if_pos h2]
  rw [he]
  simp only [List.cons_append, List.nil_append, List.append_eq, utf8DecodeAux]
  rw [if_neg (show ¬ 0xC0 + c / 0x40 < 0x80 by omega),
    if_neg (show ¬ 0xC0 + c / 0x40 < 0xC2 by omega),
    if_pos (show 0xC0 + c / 0x40 < 0xE0 by omega),
    if_pos (show (0x80 : Nat) ≤ 0x80 + c % 0x40 ∧ 0x80 + c % 0x40 ≤ 0xBF by omega)]
  have hv : (0xC0 + c / 0x40 - 0xC0) * 0x40 + (0x80 + c % 0x40 - 0x80) = c := by omega
  rw [hv]

lemma utf8DecodeAux_enc3 (fuel c : Nat) (rest : List Nat) (h1 : 0x800 ≤ c) (h2 : c < 0x10000)
    (h3 : c < 0xD800 ∨ 0xE000 ≤ c) :
    utf8DecodeAux (fuel + 1) (utf8EncodeChar c ++ rest) =
      (utf8DecodeAux fuel rest).map (c :: ·) := by
  have e1 : c / 0x40 / 0x40 = c / 0x1000 := by
    rw [Nat.div_div_eq_div_mul]
  have he : utf8EncodeChar c = [0xE0 + c / 0x1000, 0x80 + c / 0x40 % 0x40, 0x80 + c % 0x40] := by
    rw [utf8EncodeChar, if_neg (by omega), if_neg (by omega), if_pos h2]
  rw [he]
  simp only [List.cons_append, List.nil_append, List.append_eq, utf8DecodeAux]
  rw [if_neg (show ¬ 0xE0 + c / 0x1000 < 0x80 by omega),
    if_neg (show ¬ 0xE0 + c / 0x1000 < 0xC2 by omega),
    if_neg (show ¬ 0xE0 + c / 0x1000 < 0xE0 by omega),
    if_pos (show 0xE0 + c / 0x1000 < 0xF0 by omega)]
  have hv : (0xE0 + c / 0x1000 - 0xE0) * 0x1000 + (0x80 + c / 0x40 % 0x40 - 0x80) * 0x40 +
      (0x80 + c % 0x40 - 0x80) = c := by omega
  by_cases hA : c < 0x1000
  · rw [if_pos (show 0xE0 + c / 0x1000 = 0xE0 by omega),
      if_neg (show ¬ 0xE0 + c / 0x1000 = 0xED by omega),
      if_pos (show (0xA0 : Nat) ≤ 0x80 + c / 0x40 % 0x40 ∧ 0x80 + c / 0x40 % 0x40 ≤ 0xBF ∧
        (0x80 : Nat) ≤ 0x80 + c % 0x40 ∧ 0x80 + c % 0x40 ≤ 0xBF by
          refine ⟨by omega, by omega, by omega, by omega⟩), hv]
  · by_cases hB : 0xD000 ≤ c ∧ c < 0xE000
    · rw [if_neg (show ¬ 0xE0 + c / 0x1000 = 0xE0 by omega),
        if_pos (show 0xE0 + c / 0x1000 = 0xED by omega),
        if_pos (show (0x80 : Nat) ≤ 0x80 + c / 0x40 % 0x40 ∧ 0x80 + c / 0x40 % 0x40 ≤ 0x9F ∧
          (0x80 : Nat) ≤ 0x80 + c % 0x40 ∧ 0x80 + c % 0x40 ≤ 0xBF by
            refine ⟨by omega, by omega, by omega, by omega⟩), hv]
    · rw [if_neg (show ¬ 0xE0 + c / 0x1000 = 0xE0 by omega),
        if_neg (show ¬ 0xE0 + c / 0x1000 = 0xED by omega),
        if_pos (show (0x80 : Nat) ≤ 0x80 + c / 0x40 % 0x40 ∧ 0x80 + c / 0x40 % 0x40 ≤ 0xBF ∧
          (0x80 : Nat) ≤ 0x80 + c % 0x40 ∧ 0x80 + c % 0x40 ≤ 0xBF by
            refine ⟨by omega, by omega, by omega, by omega⟩), hv]

lemma utf8DecodeAux_enc4 (fuel c : Nat) (rest : List Nat) (h1 : 0x10000 ≤ c)
    (h2 : c < 0x110000) :
    utf8DecodeAux (fuel + 1) (utf8EncodeChar c ++ rest) =
      (utf8DecodeAux fuel rest).map (c :: ·) := by
  have e1 : c / 0x40 / 0x40 = c / 0x1000 := by
    rw [Nat.div_div_eq_div_mul]
  have e2 : c / 0x1000 / 0x40 = c / 0x40000 := by
    rw [Nat.div_div_eq_div_mul]
  have he : utf8EncodeChar c =
      [0xF0 + c / 0x40000, 0x80 + c / 0x1000 % 0x40, 0x80 + c / 0x40 % 0x40, 0x80 + c % 0x40] := by
    rw [utf8EncodeChar, if_neg (by omega), if_neg (by omega), if_neg (by omega)]
  rw [he]
  simp only [List.cons_append, List.nil_append, List.append_eq, utf8DecodeAux]
  rw [if_neg (show ¬ 0xF0 + c / 0x40000 < 0x80 by omega),
    if_neg (show ¬ 0xF0 + c / 0x40000 < 0xC2 by omega),
    if_neg (show ¬ 0xF0 + c / 0x40000 < 0xE0 by omega),
    if_neg (show ¬ 0xF0 + c / 0x40000 < 0xF0 by omega),
    if_pos (show 0xF0 + c / 0x40000 < 0xF5 by omega)]
  have hv : (0xF0 + c / 0x40000 - 0xF0) * 0x40000 + (0x80 + c / 0x1000 % 0x40 - 0x80) * 0x1000 +
      (0x80 + c / 0x40 % 0x40 - 0x80) * 0x40 + (0x80 + c % 0x40 - 0x80) = c := by omega
  by_cases hA : c < 0x40000
  · rw [if_pos (show 0xF0 + c / 0x40000 = 0xF0 by omega),
      if_neg (show ¬ 0xF0 + c / 0x40000 = 0xF4 by omega),
      if_pos (show (0x90 : Nat) ≤ 0x80 + c / 0x1000 % 0x40 ∧ 0x80 + c / 0x1000 % 0x40 ≤ 0xBF ∧
        (0x80 : Nat) ≤ 0x80 + c / 0x40 % 0x40 ∧ 0x80 + c / 0x40 % 0x40 ≤ 0xBF ∧
        (0x80 : Nat) ≤ 0x80 + c % 0x40 ∧ 0x80 + c % 0x40 ≤ 0xBF by
          refine ⟨by omega, by omega, by omega, by omega, by omega, by omega⟩), hv]
  · by_cases hB : 0x100000 ≤ c
    · rw [if_neg (show ¬ 0xF0 + c / 0x40000 = 0xF0 by omega),
        if_pos (show 0xF0 + c / 0x40000 = 0xF4 by omega),
        if_pos (show (0x80 : Nat) ≤ 0x80 + c / 0x1000 % 0x40 ∧ 0x80 + c / 0x1000 % 0x40 ≤ 0x8F ∧
          (0x80 : Nat) ≤ 0x80 + c / 0x40 % 0x40 ∧ 0x80 + c / 0x40 % 0x40 ≤ 0xBF ∧
          (0x80 : Nat) ≤ 0x80 + c % 0x40 ∧ 0x80 + c % 0x40 ≤ 0xBF by
            refine ⟨by omega, by omega, by omega, by omega, by omega, by omega⟩), hv]
    · rw [if_neg (show ¬ 0xF0 + c / 0x40000 = 0xF0 by omega),
        if_neg (show ¬ 0xF0 + c / 0x40000 = 0xF4 by omega),
        if_pos (show (0x80 : Nat) ≤ 0x80 + c / 0x1000 % 0x40 ∧ 0x80 + c / 0x1000 % 0x40 ≤ 0xBF ∧
          (0x80 : Nat) ≤ 0x80 + c / 0x40 % 0x40 ∧ 0x80 + c / 0x40 % 0x40 ≤ 0xBF ∧
          (0x80 : Nat) ≤ 0x80 + c % 0x40 ∧ 0x80 + c % 0x40 ≤ 0xBF by
            refine ⟨by omega, by omega, by omega, by omega, by omega, by omega⟩), hv]

lemma utf8DecodeAux_encodeChar (fuel : Nat) {c : Nat} (hc : isScalar c = true)
    (rest : List Nat) :
    utf8DecodeAux (fuel + 1) (utf8EncodeChar c ++ rest) =
      (utf8DecodeAux fuel rest).map (c :: ·) := by
  simp only [isScalar, Bool.or_eq_true, Bool.and_eq_true, decide_eq_true_eq] at hc
  by_cases h1 : c < 0x80
  · exact utf8DecodeAux_enc1 fuel c rest h1
  · by_cases h2 : c < 0x800
    · exact utf8DecodeAux_enc2 fuel c rest (by omega) h2
    · by_cases h3 : c < 0x10000
      · exact utf8DecodeAux_enc3 fuel c rest (by omega) h3 (by omega)
      · exact utf8DecodeAux_enc4 fuel c rest (by omega) (by omega)

lemma utf8DecodeAux_encode {s : Str} (hs : validStr s = true) :
    ∀ fuel, s.length ≤ fuel → utf8DecodeAux fuel (utf8Encode s) = some s := by
  induction s with
  | nil =>
    intro fuel _
    cases fuel <;> simp [utf8Encode, utf8DecodeAux]
  | cons c cs ih =>
    intro fuel hfuel
    simp only [validStr, List.all_cons, Bool.and_eq_true] at hs
    match fuel, hfuel with
    | fuel + 1, hf =>
      rw [utf8Encode, utf8DecodeAux_encodeChar fuel hs.1,
        ih (by simpa [validStr] using hs.2) fuel (by
          simp only [List.length_cons] at hf
          omega)]
      rfl

lemma length_le_utf8Encode_length (s : Str) : s.length ≤ (utf8Encode s).length := by
  induction s with
  | nil => simp [utf8Encode]
  | cons c cs ih =>
    rw [utf8Encode]
    simp only [List.length_append, List.length_cons]
    have := utf8EncodeChar_length_pos c
    omega

/-- UTF-8 round-trip: decoding the encoding of a Rust `String` recovers it. -/
theorem utf8Decode_encode {s : Str} (hs : validStr s = true) :
    utf8Decode (utf8Encode s) = some s :=
  utf8DecodeAux_encode hs _ (length_le_utf8Encode_length s)

/-! ### Codec round-trip lemmas -/

lemma decU32_encU32 (n : Nat) (rest : List Nat) :
    decU32 (encU32 n ++ rest) = .ok (n % 2 ^ 32, rest) := by
  simp only [encU32, List.cons_append, List.nil_append, decU32]
  congr 2
  omega

lemma decString_encString {s : Str} (hs : strWf s = true) (rest : List Nat) :
    decString (encString s ++ rest) = .ok (s, rest) := by
  simp only [strWf, Bool.and_eq_true, decide_eq_true_eq] at hs
  rw [encString, List.append_assoc, decString, decU32_encU32,
    Nat.mod_eq_of_lt hs.2]
  dsimp only
  rw [if_neg (by simp only [List.length_append]; omega)]
  rw [List.take_left, utf8Decode_encode hs.1, List.drop_left]

lemma decMsg_byte (b : Nat) (rest : List Nat) :
    decMsg (b :: rest) =
      match packetKindOfByte b with
      | none => .error .invalidData
      | some .Ok => .ok (.ok, rest)
      | some .Handshake => decHandshakeBody rest
      | some .Intent => decIntentBody rest
      | some .Continue => decContinueBody rest
      | some .FileHeader => decFileHeaderBody rest
      | some .File => .error .invalidData := by
  rfl

lemma decMsg_encMsg {m : Msg} (hm : msgWf m = true) (rest : List Nat) :
    decMsg (encMsg m ++ rest) = .ok (m, rest) := by
  cases m with
  | ok => rfl
  | handshake name ip =>
    simp only [msgWf, Bool.and_eq_true] at hm
    show decMsg (PacketKind.Handshake.tag :: (encString name ++ encString ip) ++ rest) = _
    rw [List.cons_append, decMsg_byte]
    show decHandshakeBody ((encString name ++ encString ip) ++ rest) = _
    rw [List.append_assoc, decHandshakeBody, decString_encString hm.1]
    dsimp only
    rw [decString_encString hm.2]
  | continueSync c =>
    cases c <;> rfl
  | intent i =>
    cases i <;> rfl
  | fileHeader path hash cert =>
    simp only [msgWf, Bool.and_eq_true] at hm
    show decMsg (PacketKind.FileHeader.tag ::
      (encString path ++ encString hash ++ encString cert) ++ rest) = _
    rw [List.cons_append, decMsg_byte]
    show decFileHeaderBody ((encString path ++ encString hash ++ encString cert) ++ rest) = _
    rw [List.append_assoc, List.append_assoc, decFileHeaderBody,
      decString_encString hm.1.1]
    dsimp only
    rw [decString_encString hm.1.2]
    dsimp only
    rw [decString_encString hm.2]

/-! ### `hash_file` characterization -/

lemma hashFileLoop_bounded :
    ∀ (n : Nat) (f : FileM) (acc : List Nat), f.content.length - f.pos ≤ n →
      hashFileLoop f acc =
        (acc ++ f.content.drop f.pos, ⟨f.content, max f.pos f.content.length⟩) := by
  intro n
  induction n with
  | zero =>
    intro f acc hn
    have hdrop : f.content.drop f.pos = [] := List.drop_eq_nil_of_le (by omega)
    rw [hashFileLoop, if_pos (by rw [hdrop]; rfl), hdrop, List.append_nil]
    have : max f.pos f.content.length = f.pos := by omega
    rw [this]
  | succ n ih =>
    intro f acc hn
    by_cases h : ((f.content.drop f.pos).take 0x1000).length = 0
    · have hdrop : f.content.drop f.pos = [] := by
        rw [List.length_take, List.length_drop] at h
        exact List.drop_eq_nil_of_le (by omega)
      rw [hashFileLoop, if_pos h, hdrop, List.append_nil]
      rw [List.length_take, List.length_drop] at h
      have : max f.pos f.content.length = f.pos := by omega
      rw [this]
    · have hlen : ((f.content.drop f.pos).take 0x1000).length =
          min 0x1000 (f.content.length - f.pos) := by
        rw [List.length_take, List.length_drop]
      rw [hashFileLoop, if_neg h,
        ih ⟨f.content, f.pos + ((f.content.drop f.pos).take 0x1000).length⟩ _ (by
          rw [hlen] at h ⊢
          simp only
          omega)]
      have hd : f.content.drop (f.pos + ((f.content.drop f.pos).take 0x1000).length) =
          (f.content.drop f.pos).drop 0x1000 := by
        rcases Nat.le_total (f.content.length - f.pos) 0x1000 with hle | hle
        · rw [List.drop_eq_nil_of_le (by rw [hlen]; omega),
            List.drop_eq_nil_of_le (by rw [List.length_drop]; omega)]
        · rw [hlen, Nat.min_eq_left hle, List.drop_drop, Nat.add_comm]
      have hm : max (f.pos + ((f.content.drop f.pos).take 0x1000).length) f.content.length =
          max f.pos f.content.length := by
        rw [hlen] at h ⊢
        omega
      simp only
      rw [hd, hm, List.append_assoc, List.take_append_drop]

lemma hashFileLoop_spec (f : FileM) (acc : List Nat) :
    hashFileLoop f acc =
      (acc ++ f.content.drop f.pos, ⟨f.content, max f.pos f.content.length⟩) :=
  hashFileLoop_bounded (f.content.length - f.pos) f acc le_rfl

/-- `hash_file` returns the digest of the bytes from the cursor to EOF and
rewinds the cursor to 0. -/
lemma hashFile_spec (H : List Nat → String) (f : FileM) :
    hashFile H f = (H (f.content.drop f.pos), ⟨f.content, 0⟩) := by
  rw [hashFile, hashFileLoop_spec]
  simp

/-! ### ASCII replicate strings -/

lemma utf8Encode_replicate {c : Nat} (hc : c < 0x80) (n : Nat) :
    utf8Encode (List.replicate n c) = List.replicate n c := by
  induction n with
  | zero => rfl
  | succ n ih =>
    rw [List.replicate_succ, utf8Encode, ih, utf8EncodeChar, if_pos hc]
    rfl

lemma validStr_replicate {c : Nat} (hc : isScalar c = true) (n : Nat) :
    validStr (List.replicate n c) = true := by
  rw [validStr, List.all_eq_true]
  intro x hx
  rw [List.mem_replicate] at hx
  rw [hx.2]
  exact hc

/-- Decoding a length-prefixed string whose bytes are not valid UTF-8 fails
with `InvalidData` (`String::from_utf8` failure arm of `ReadAny<String>`). -/
lemma decString_invalid {bs : List Nat} (hlen : bs.length < 2 ^ 32)
    (hbad : utf8Decode bs = none) (rest : List Nat) :
    decString (encU32 bs.length ++ (bs ++ rest)) = .error .invalidData := by
  rw [decString, decU32_encU32, Nat.mod_eq_of_lt hlen]
  dsimp only
  rw [if_neg (by simp only [List.length_append]; omega)]
  rw [List.take_left, hbad]

/-! # Claim theorems -/

/-- C1: the claim that the codec's one-byte tags match the specification's
wire-protocol table (Ok=0x1, Close=0x2, Handshake=0x3, …, Skip=0xC) and that
every kind of the table is representable fails on the checked-in
`packet.rs`: the code's enumeration has six kinds with `Handshake = 0x2`
(the table's `Close` slot), and `Close`, `NotFound`, `Heartbeat`,
`BeginSync`, `EndSync`, `Remove`, `Rename`, `Skip` are not representable —
bytes 0x7–0xC are rejected by `read_packet_kind`. -/
theorem C1_packet_kind_table :
    PacketKind.Handshake.tag = 0x2 ∧
    ("Handshake", 0x3) ∈ specKindTable ∧
    ("Close", 0x2) ∈ specKindTable ∧
    (∀ k : PacketKind, PacketKind.name k ≠ "Close") ∧
    (∀ k : PacketKind, PacketKind.name k ≠ "Skip") ∧
    packetKindOfByte 0x2 = some PacketKind.Handshake ∧
    packetKindOfByte 0x7 = none ∧
    packetKindOfByte 0xC = none := by
  decide

/-- C2: the claim that no `.mirra` directory entry is enumerated or
transmitted fails on the code: `sync_dir` has no `.mirra` filter, so a module
containing `.mirra/private.key` transmits a `FileHeader` with relative path
`.mirra/private.key` and the file's content. -/
theorem C2_mirra_dir_transmitted :
    syncChildren (fun _ => "h") (fun _ => "s") []
      (.cons (.dir ".mirra" (.cons (.file "private.key" [9]) .nil))
        (.cons (.file "a" [1]) .nil))
      [.Ok, .Ok, .Ok, .Ok] =
      .ok ([.fileHeader ".mirra/private.key" "h" "s", .fileData [9],
            .fileHeader "a" "h" "s", .fileData [1]], []) ∧
    ".mirra/private.key" ∈ headerPaths
      [.fileHeader ".mirra/private.key" "h" "s", .fileData [9],
       .fileHeader "a" "h" "s", .fileData [1]] := by
  decide

/-- C3: the claim that the node rejects relative paths escaping the module
root fails on the code: `receive_file`, the `Remove` arm and the `Rename` arm
all join the carried path onto the module directory with no check, so a
header path `../evil.txt` creates a file outside the module root
(`["data", "evil.txt"]`, not under `["data", "mod"]`), an absolute path
replaces the base entirely, a `Remove` of `../secret` deletes outside the
root, and a `Rename` moves a file to `/etc/passwd`. -/
theorem C3_path_escape_applied :
    receiveFile (fun _ => "h") ["data", "mod"] [] ⟨"../evil.txt", "x", "c"⟩ [1] =
      .ok ([.ok, .ok], [(["data", "evil.txt"], .file [1])]) ∧
    (["data", "mod"].isPrefixOf ["data", "evil.txt"]) = false ∧
    receiveFile (fun _ => "h") ["data", "mod"] [] ⟨"/tmp/owned", "x", "c"⟩ [2] =
      .ok ([.ok, .ok], [(["tmp", "owned"], .file [2])]) ∧
    nodeRemove ["data", "mod"] [(["data", "secret"], .file [7])] "../secret" =
      ([.ok], []) ∧
    nodeRename ["data", "mod"] [(["data", "mod", "a"], .file [7])] "a" "../../etc/passwd" =
      ([.ok], [(["etc", "passwd"], .file [7])]) := by
  refine ⟨by decide, by decide, by decide, by decide, by decide⟩

/-- C4: the claim that `recv_file` writes exactly the bytes received fails on
the code for a partial read: `expect_file` writes `buf[0..to_read]` although
only `read` bytes were received, so with declared size 2 and a schedule that
delivers one byte per read, the file receives `[7, 0, 9]` — three bytes, the
middle one a stale buffer byte that never came from the stream — while the
stream delivered `[7, 9]`.  A wrong leading kind byte is rejected with
`InvalidData`. -/
theorem C4_expect_file_partial_read :
    expectFile PacketKind.File.tag 2 [7, 9] [1, 1, 1] = .ok ([7, 0, 9], [7, 9], 0) ∧
    ([7, 0, 9] : List Nat) ≠ [7, 9] ∧
    ([7, 0, 9] : List Nat).length ≠ 2 ∧
    expectFile 0x3 2 [7, 9] [2] = .error .invalidData := by
  decide

/-- C5: the claim that the root replies `Ok` iff the module is found (and on
a miss replies `NotFound` without `Ok`) fails on the code: `process_socket`
sends `Ok` unconditionally right after reading every `Handshake` body, before
the lookup; a miss then additionally sends `NotFound` and loops.  With one
share `m`, a request for the unknown module `nope` followed by one for `m`
produces the reply sequence `[Ok, NotFound, Ok]`. -/
theorem C5_handshake_ok_before_lookup :
    processHandshake (fun s => s) [("m", "/srv/m")] []
      [.handshake "nope", .handshake "m"] =
      .ok ([.ok, .notFound, .ok], some "/srv/m") ∧
    processHandshake (fun s => s) [] [] [.handshake "nope", .close] =
      .ok ([.ok, .notFound, .close], none) := by
  decide

/-- C6 (amended): in a per-file exchange, if the node's target exists as a
regular file whose hash equals the header's, the node replies `Skip`, the
root sends the `FileHeader` and zero `File` messages, and the filesystem is
unchanged; if the target does not exist, or exists as a regular file with a
different hash, the node replies `Ok`, exactly one `File` message is sent,
and the content is stored; if the target exists as a directory, the node
fails with an I/O error before replying (the original claim's "otherwise
replies Ok" fails there). -/
theorem C6_skip_iff_hash_eq (H : List Nat → String) (sign : String → String)
    (base : List String) (fs : NodeFs) (relPath : String) (content : List Nat) :
    (∀ c, lookupFs fs (normComps (joinP base (parsePath relPath))) = some (.file c) →
      ((H c = H content →
        fileExchange H sign base fs relPath content =
          .ok ([.fileHeader relPath (H content) (sign (H content))], [.skip], fs)) ∧
       (¬ H c = H content →
        fileExchange H sign base fs relPath content =
          .ok ([.fileHeader relPath (H content) (sign (H content)), .fileData content],
            [.ok, .ok],
            insertFs fs (normComps (joinP base (parsePath relPath))) (.file content))))) ∧
    (lookupFs fs (normComps (joinP base (parsePath relPath))) = none →
      fileExchange H sign base fs relPath content =
        .ok ([.fileHeader relPath (H content) (sign (H content)), .fileData content],
          [.ok, .ok],
          insertFs fs (normComps (joinP base (parsePath relPath))) (.file content))) ∧
    (lookupFs fs (normComps (joinP base (parsePath relPath))) = some .dir →
      fileExchange H sign base fs relPath content = .error .io) := by
  refine ⟨fun c hc => ⟨fun he => ?_, fun hne => ?_⟩, fun hn => ?_, fun hd => ?_⟩
  · have hr : receiveFile H base fs ⟨relPath, H content, sign (H content)⟩ content =
        .ok ([.skip], fs) := by
      simp only [receiveFile]
      rw [hc]
      dsimp only
      rw [if_pos he]
    simp only [fileExchange, hr, List.map_cons, List.map_nil, kindOfPMsg]
    rfl
  · have hr : receiveFile H base fs ⟨relPath, H content, sign (H content)⟩ content =
        .ok ([.ok, .ok],
          insertFs fs (normComps (joinP base (parsePath relPath))) (.file content)) := by
      simp only [receiveFile]
      rw [hc]
      dsimp only
      rw [if_neg hne]
    simp only [fileExchange, hr, List.map_cons, List.map_nil, kindOfPMsg]
    rfl
  · have hr : receiveFile H base fs ⟨relPath, H content, sign (H content)⟩ content =
        .ok ([.ok, .ok],
          insertFs fs (normComps (joinP base (parsePath relPath))) (.file content)) := by
      simp only [receiveFile]
      rw [hn]
    simp only [fileExchange, hr, List.map_cons, List.map_nil, kindOfPMsg]
    rfl
  · have hr : receiveFile H base fs ⟨relPath, H content, sign (H content)⟩ content =
        .error .io := by
      simp only [receiveFile]
      rw [hd]
    simp only [fileExchange, hr]

/-- C6 witness: a concrete exchange through the Skip branch and one through
the send branch. -/
theorem C6_skip_iff_hash_eq_witness :
    lookupFs [(["m", "a"], Entry.file [5])] (normComps (joinP ["m"] (parsePath "a"))) =
      some (.file [5]) ∧
    fileExchange (fun _ => "h") (fun _ => "s") ["m"] [(["m", "a"], Entry.file [5])] "a" [5] =
      .ok ([.fileHeader "a" "h" "s"], [.skip], [(["m", "a"], Entry.file [5])]) ∧
    lookupFs [] (normComps (joinP ["m"] (parsePath "b"))) = none ∧
    fileExchange (fun _ => "h") (fun _ => "s") ["m"] [] "b" [6] =
      .ok ([.fileHeader "b" "h" "s", .fileData [6]], [.ok, .ok],
        insertFs [] (normComps (joinP ["m"] (parsePath "b"))) (.file [6])) := by
  refine ⟨by decide, ?_, by decide, ?_⟩
  · exact ((C6_skip_iff_hash_eq (fun _ => "h") (fun _ => "s") ["m"]
      [(["m", "a"], Entry.file [5])] "a" [5]).1 [5] (by decide)).1 rfl
  · exact (C6_skip_iff_hash_eq (fun _ => "h") (fun _ => "s") ["m"] [] "b" [6]).2.1 (by decide)

/-- C6 counterexample: when the target path exists as a directory, the node
neither replies `Skip` nor `Ok` — the exchange fails with an I/O error — so
the original claim's "otherwise the node replies Ok and exactly one File
message is sent" is false at this input. -/
theorem C6_dir_target_counterexample :
    fileExchange (fun _ => "h") (fun _ => "s") ["m"] [(["m", "a"], Entry.dir)] "a" [1] =
      .error .io := by
  decide

/-- C7 (amended): when the node replies `Close` to a `FileHeader`, the root
sends no `File` message for that file and performs no explicit unlock (only
the `lock`; the handle is dropped), but it does NOT terminate the session:
`sync_file` returns success exactly as for `Skip`, and the directory walk
continues with the remaining entries, sending further `FileHeader`/`File`
messages. -/
theorem C7_close_reply_behavior (H : List Nat → String) (sign : String → String)
    (relPath : String) (content : List Nat) (rs : List ProtoKind)
    (rel : List String) (name : String) (c : List Nat) (ts : FsChildren) :
    syncFile H sign relPath content (.Close :: rs) =
      .ok ([.fileHeader relPath (H content) (sign (H content))], [.lock], rs) ∧
    syncTree H sign rel (.file name c) (.Close :: rs) =
      .ok ([.fileHeader (String.intercalate "/" (rel ++ [name])) (H c) (sign (H c))], rs) ∧
    syncChildren H sign rel (.cons (.file name c) ts) (.Close :: rs) =
      (match syncChildren H sign rel ts rs with
       | .error e => .error e
       | .ok (msgs2, rs2) =>
         .ok (.fileHeader (String.intercalate "/" (rel ++ [name])) (H c) (sign (H c)) :: msgs2,
           rs2)) := by
  refine ⟨rfl, rfl, ?_⟩
  cases h2 : syncChildren H sign rel ts rs with
  | error e =>
    simp only [syncChildren, syncTree, syncFile, h2]
  | ok p =>
    obtain ⟨m2, rs2⟩ := p
    simp only [syncChildren, syncTree, syncFile, h2, List.cons_append, List.nil_append]

/-- C7 counterexample: the node replies `Close` to the first file's header,
yet the root goes on to send a `FileHeader` and a `File` for the second file
— the session is not terminated and further messages are sent, refuting the
original claim. -/
theorem C7_close_counterexample :
    syncChildren (fun _ => "h") (fun _ => "s") []
      (.cons (.file "a" [1]) (.cons (.file "b" [2]) .nil))
      [.Close, .Ok, .Ok] =
      .ok ([.fileHeader "a" "h" "s", .fileHeader "b" "h" "s", .fileData [2]], []) := by
  decide

/-- C8: `hash_file` reads from the current cursor to EOF in 4 KiB chunks,
returns the digest of exactly those bytes (the digest function `H` abstracts
the 256-bit blake3 lowercase-hex digest), and seeks the file to offset 0
before returning; hence for a file handle at cursor 0, two consecutive calls
return the same digest and both leave the cursor at 0. -/
theorem C8_hash_file_idempotent (H : List Nat → String) (f : FileM) :
    hashFile H f = (H (f.content.drop f.pos), ⟨f.content, 0⟩) ∧
    (f.pos = 0 →
      (hashFile H f).1 = (hashFile H (hashFile H f).2).1 ∧
      (hashFile H f).2.pos = 0 ∧
      (hashFile H (hashFile H f).2).2.pos = 0) := by
  have h1 := hashFile_spec H f
  refine ⟨h1, fun h0 => ?_⟩
  rw [h1, hashFile_spec]
  simp [h0]

/-- C8 witness: the idempotence conclusion at a concrete file and digest
function. -/
theorem C8_hash_file_witness :
    (⟨[1, 2], 0⟩ : FileM).pos = 0 ∧
    ((hashFile (fun _ => "d") ⟨[1, 2], 0⟩).1 =
      (hashFile (fun _ => "d") (hashFile (fun _ => "d") ⟨[1, 2], 0⟩).2).1 ∧
     (hashFile (fun _ => "d") ⟨[1, 2], 0⟩).2.pos = 0 ∧
     (hashFile (fun _ => "d") (hashFile (fun _ => "d") ⟨[1, 2], 0⟩).2).2.pos = 0) :=
  ⟨rfl, (C8_hash_file_idempotent (fun _ => "d") ⟨[1, 2], 0⟩).2 rfl⟩

/-- C9 (amended): decoding the encoding recovers every message whose string
fields are valid Unicode with UTF-8 byte length below 2^32 (the `u32` length
prefix is written with a truncating cast, so longer fields do not round-trip
— see the counterexample); and decoding a length-prefixed string whose bytes
are not valid UTF-8 fails with `InvalidData`. -/
theorem C9_codec_roundtrip :
    (∀ (m : Msg) (rest : List Nat), msgWf m = true →
      decMsg (encMsg m ++ rest) = .ok (m, rest)) ∧
    (∀ (bs rest : List Nat), bs.length < 2 ^ 32 → utf8Decode bs = none →
      decString (encU32 bs.length ++ (bs ++ rest)) = .error .invalidData) :=
  ⟨fun _ rest hm => decMsg_encMsg hm rest,
   fun _ rest h1 h2 => decString_invalid h1 h2 rest⟩

/-- C9 witness: a concrete `FileHeader` round-trips, and the single byte
`0xFF` is rejected as invalid UTF-8 with `InvalidData`. -/
theorem C9_codec_roundtrip_witness :
    msgWf (.fileHeader [104] [97] [98]) = true ∧
    decMsg (encMsg (.fileHeader [104] [97] [98]) ++ []) =
      .ok (.fileHeader [104] [97] [98], []) ∧
    ([0xFF] : List Nat).length < 2 ^ 32 ∧
    utf8Decode [0xFF] = none ∧
    decString (encU32 ([0xFF] : List Nat).length ++ ([0xFF] ++ [])) =
      .error .invalidData :=
  ⟨by decide, C9_codec_roundtrip.1 _ [] (by decide), by decide, by decide,
   C9_codec_roundtrip.2 [0xFF] [] (by decide) (by decide)⟩

lemma decString_encU32_mod_zero (Y : List Nat) (n : Nat) (hn : n % 2 ^ 32 = 0) :
    decString (encU32 n ++ Y) = .ok ([], Y) := by
  rw [decString, decU32_encU32, hn]
  dsimp only
  rw [if_neg (by omega), List.take_zero, List.drop_zero]
  rfl

/-- A `Handshake` whose `name` consists of `n` one-byte characters with
`n % 2^32 = 0` and `n ≠ 0` does not round-trip: the `as u32` cast truncates
the length prefix to 0, so the decoder returns an empty `name`. -/
lemma decMsg_handshake_truncated {n : Nat} (hn : n % 2 ^ 32 = 0) (hpos : n ≠ 0) :
    decMsg (encMsg (.handshake (List.replicate n 65) [])) ≠
      .ok (.handshake (List.replicate n 65) [], []) := by
  intro hEq
  have hben : utf8Encode (List.replicate n 65) = List.replicate n 65 :=
    utf8Encode_replicate (by norm_num) _
  have h2 : decMsg (encMsg (.handshake (List.replicate n 65) [])) =
      decHandshakeBody (encString (List.replicate n 65) ++ encString []) := rfl
  have h3 : decString (encString (List.replicate n 65) ++ encString []) =
      .ok ([], List.replicate n 65 ++ encString []) := by
    rw [encString, hben, List.length_replicate, List.append_assoc]
    exact decString_encU32_mod_zero _ _ hn
  rw [h2, decHandshakeBody, h3] at hEq
  dsimp only at hEq
  cases hY : decString (List.replicate n 65 ++ encString []) with
  | error e =>
    rw [hY] at hEq
    exact absurd hEq (by simp)
  | ok p =>
    obtain ⟨ip, r2⟩ := p
    rw [hY] at hEq
    simp only [Except.ok.injEq, Prod.mk.injEq, Msg.handshake.injEq] at hEq
    have hlen := congrArg List.length hEq.1.1.symm
    simp only [List.length_replicate, List.length_nil] at hlen
    exact absurd hlen hpos

/-- C9 counterexample: a `Handshake` whose `name` has 2^32 one-byte
characters does not round-trip — the `as u32` cast truncates the length
prefix to 0, so the decoder returns an empty `name`, refuting the unqualified
round-trip claim. -/
theorem C9_roundtrip_counterexample :
    decMsg (encMsg (.handshake (List.replicate (2 ^ 32) 65) [])) ≠
      .ok (.handshake (List.replicate (2 ^ 32) 65) [], []) :=
  decMsg_handshake_truncated (by norm_num) (by norm_num)

/-- C10: when the node's receive-file takes the Skip path — the target exists
as a regular file and its hash equals the header's — the filesystem is
returned unchanged: no entry is created, truncated or written, and the only
message sent is `Skip`. -/
theorem C10_skip_no_mutation (H : List Nat → String) (base : List String) (fs : NodeFs)
    (hdr : FileHeaderP) (incoming : List Nat) (c : List Nat)
    (hc : lookupFs fs (normComps (joinP base (parsePath hdr.path))) = some (.file c))
    (he : H c = hdr.hash) :
    receiveFile H base fs hdr incoming = .ok ([.skip], fs) := by
  simp only [receiveFile]
  rw [hc]
  dsimp only
  rw [if_pos he]

/-- C10 witness: the Skip path at a concrete filesystem leaves it untouched. -/
theorem C10_skip_no_mutation_witness :
    lookupFs [(["m", "a"], Entry.file [5])]
      (normComps (joinP ["m"] (parsePath "a"))) = some (.file [5]) ∧
    (fun l => if l = [5] then "h5" else "x") [5] = "h5" ∧
    receiveFile (fun l => if l = [5] then "h5" else "x") ["m"]
      [(["m", "a"], Entry.file [5])] ⟨"a", "h5", "c"⟩ [9] =
      .ok ([.skip], [(["m", "a"], Entry.file [5])]) :=
  ⟨by decide, by decide,
   C10_skip_no_mutation (fun l => if l = [5] then "h5" else "x") ["m"]
     [(["m", "a"], Entry.file [5])] ⟨"a", "h5", "c"⟩ [9] [5] (by decide) (by decide)⟩

end Mirra
